import Mathlib

/-!
Verification development for the `make-notices` license/notice report
generator (`src/main.rs`).  The core pipeline is embedded shallowly:

* SPDX license requirements and expressions, with the evaluation that the
  program performs through the external `spdx` crate
  (`Expression::parse_mode` / `evaluate_with_failures` / `requirements`).
  The crate's sources are not part of this repository, so the expression
  datatype and its evaluation are modelled from the specification: AND/OR
  over leaves, WITH folded into the leaf requirement, failures reported as
  the leaf requirements failing allow-list membership in encounter order.
  Parsing of the license string is treated as an external step: functions
  take the already-parsed `Expression`.
* The `Notices` aggregator (`add_license`, `get_license_texts`) from
  `src/main.rs`.  The static license-text corpus (the external `license`
  crate plus the spdx identifier table) is modelled as an abstract partial
  lookup, and the `unwrap` calls of `get_license_texts` as `Option`.
* The copyright scanner's regexes (`COPYRIGHT_FILE_RE`, `COPYRIGHT_RE`,
  `NOT_COPYRIGHT_RE`) as executable character-list functions; the `(?i)`
  flag is modelled as ASCII case folding, which is exact on every character
  the patterns contain.
* The two ecosystem collectors and `start`, with the external world (cargo
  metadata, `pnpm list`, the file system) supplied as input data: each
  package descriptor carries the answers the environment would give, and
  file writes are modelled as the list of files the run produces.
-/

namespace MakeNotices

/-- A single SPDX license requirement: identifier, or-later flag, optional
exception identifier.  Equality is structural, as for the derived
`PartialEq` in the Rust `spdx` crate. -/
structure LicenseReq where
  license : String
  or_later : Bool
  exception : Option String
deriving DecidableEq, Repr

/-- Modelled from the spec: the display rendering of a requirement used in
error messages and as the key of the license-text table (the `spdx` crate's
`Display for LicenseReq`): identifier, `+` when or-later, ` WITH exc` when
an exception is present. -/
def LicenseReq.render (r : LicenseReq) : String :=
  r.license ++ (if r.or_later then "+" else "")
    ++ (match r.exception with | none => "" | some e => " WITH " ++ e)

/-- Modelled from the spec: a parsed SPDX license expression — a boolean
combination (AND/OR) of leaf requirements, the WITH modifier folded into
the leaf.  The `spdx` crate guarantees a parsed expression has at least one
requirement, which this datatype enforces by construction. -/
inductive Expression where
  | req (r : LicenseReq)
  | and (a b : Expression)
  | or (a b : Expression)
deriving DecidableEq, Repr

/-- Modelled from the spec: `Expression::requirements`, the flattened leaf
requirements of the expression in encounter (left-to-right) order. -/
def Expression.requirements : Expression → List LicenseReq
  | .req r => [r]
  | .and a b => a.requirements ++ b.requirements
  | .or a b => a.requirements ++ b.requirements

/-- Modelled from the spec: the evaluation pass of the `spdx` crate's
`Expression::evaluate_with_failures` — the postfix machine evaluates every
leaf with the allow predicate and records every failing leaf, in encounter
order, whether or not its branch ends up needed. -/
def Expression.evalFail (allow : LicenseReq → Bool) : Expression → Bool × List LicenseReq
  | .req r => (allow r, if allow r then [] else [r])
  | .and a b =>
    ((a.evalFail allow).1 && (b.evalFail allow).1, (a.evalFail allow).2 ++ (b.evalFail allow).2)
  | .or a b =>
    ((a.evalFail allow).1 || (b.evalFail allow).1, (a.evalFail allow).2 ++ (b.evalFail allow).2)

/-- Modelled from the spec: `Expression::evaluate_with_failures` — `ok` when
the expression is satisfied under the allow predicate, otherwise the list of
failing leaf requirements. -/
def Expression.evaluate_with_failures (e : Expression) (allow : LicenseReq → Bool) :
    Except (List LicenseReq) Unit :=
  let r := e.evalFail allow
  if r.1 then .ok () else .error r.2

/-- The specification's logical semantics of an expression: AND requires all
operands, OR at least one, each leaf tested with the allow predicate.  This
is the spec-side definition that the machine `evalFail` is compared with. -/
def Expression.specSatisfied (allow : LicenseReq → Bool) : Expression → Bool
  | .req r => allow r
  | .and a b => a.specSatisfied allow && b.specSatisfied allow
  | .or a b => a.specSatisfied allow || b.specSatisfied allow

/-- One dependency record (`struct Dep`).  The literal license string is
kept as its parsed expression (parsing is the external `spdx` crate);
the `HashSet<String>` of notices is modelled as a duplicate-free list. -/
structure Dep where
  name : String
  package_url : String
  license_id : Expression
  notices : List String
deriving DecidableEq, Repr

/-- The aggregator (`struct Notices`): dependency records in append order
and the deduplicated license-requirement list. -/
structure Notices where
  dependencies : List Dep
  licences : List LicenseReq
deriving DecidableEq, Repr

/-- `Notices::add_license`: push the requirement only when no structurally
equal entry is present. -/
def Notices.add_license (n : Notices) (req : LicenseReq) : Notices :=
  if req ∈ n.licences then n else { n with licences := n.licences ++ [req] }

/-- The static license-text corpus: the `license` crate's tables for license
and exception identifiers, modelled as abstract partial lookups (the spec's
`LicenseTextProvider` capability). -/
structure Corpus where
  license_text : String → Option String
  exception_text : String → Option String

/-- The per-requirement body of `Notices::get_license_texts`: look up the
license text (the chained `id().unwrap()` / `parse().unwrap()` modelled as
`Option` bind) and, when an exception is present, append its text beneath
the `WITH EXCEPTION:` delimiter separated by blank lines. -/
def req_license_text (c : Corpus) (r : LicenseReq) : Option String := do
  let base ← c.license_text r.license
  match r.exception with
  | none => pure base
  | some e => do
    let ex ← c.exception_text e
    pure (base ++ "\n\nWITH EXCEPTION:\n\n" ++ ex)

/-- The collection loop of `get_license_texts` over a requirement list:
for each requirement in order, the pair of its rendering and its resolved
text; `none` when any lookup aborts. -/
def collectTexts (c : Corpus) : List LicenseReq → Option (List (String × String))
  | [] => some []
  | r :: rs => do
    let t ← req_license_text c r
    let ts ← collectTexts c rs
    pure ((r.render, t) :: ts)

/-- `Notices::get_license_texts`. -/
def Notices.get_license_texts (n : Notices) (c : Corpus) : Option (List (String × String)) :=
  collectTexts c n.licences

/-- The failure message of `handle_package_license`: the fixed text followed
by the failing requirements, comma-separated. -/
def allowFailMessage (failed : List LicenseReq) : String :=
  "None of the following licenses were allowed in the `allowed_licenses` configuration: "
    ++ String.intercalate ", " (failed.map LicenseReq.render)

/-- `handle_package_license` (post-parse): evaluate the expression against
the allow-list by structural membership; on failure, the enumerated
message; on success, add every requirement of the expression to the
aggregator. -/
def handle_package_license (allowed_licenses : List LicenseReq) (license : Expression)
    (notices : Notices) : Except String Notices :=
  match license.evaluate_with_failures (fun req => decide (req ∈ allowed_licenses)) with
  | .error failed => .error (allowFailMessage failed)
  | .ok _ => .ok (license.requirements.foldl Notices.add_license notices)

/-- Whether an `Except` is a success (`Result::is_ok`). -/
def exceptOk {ε α : Type} : Except ε α → Bool
  | .ok _ => true
  | .error _ => false

/-- `LicenseReqVisitor::visit_seq`, one element: parse succeeded with this
expression; take its first requirement, and error when a second one exists
(the empty case is the unreachable `unwrap` panic — a parsed expression
always has a requirement). -/
def visit_entry (e : Expression) : Except String LicenseReq :=
  match e.requirements with
  | [] => .error "panic: called `Option::unwrap()` on a `None` value"
  | [r] => .ok r
  | _ :: _ :: _ => .error "License must be a single requirement"

/-- The `allowed_licenses` deserializer (`license_reqs` / `visit_seq`) over
the already-parsed entries: collect each entry's single requirement,
stopping at the first entry that is not a single requirement. -/
def license_reqs : List Expression → Except String (List LicenseReq)
  | [] => .ok []
  | e :: es =>
    match visit_entry e with
    | .error msg => .error msg
    | .ok r =>
      match license_reqs es with
      | .error msg => .error msg
      | .ok rs => .ok (r :: rs)

/-- ASCII case folding of a character list, the model of the regex `(?i)`
flag (exact for the ASCII letters and the `©` of the patterns). -/
def lowerStr (l : List Char) : List Char := l.map Char.toLower

/-- Whether `pat` occurs as a contiguous substring of `l` (the unanchored
match of a literal regex). -/
def containsSub : List Char → List Char → Bool
  | _, [] => true
  | [], _ :: _ => false
  | c :: cs, p :: ps => List.isPrefixOf (p :: ps) (c :: cs) || containsSub cs (p :: ps)

/-- The `(©|\(c\))` alternative of `COPYRIGHT_RE`, on an already-lowered
line segment. -/
def hasMarker (l : List Char) : Bool :=
  containsSub l ['©'] || containsSub l ['(', 'c', ')']

/-- Whether `COPYRIGHT_RE` (`(?im)copyright.*(©|\(c\)).*$`) matches starting
at the head of this line suffix: the suffix begins with `copyright`
case-insensitively and a `©` or `(c)` marker occurs at or after its end;
the (greedy) match then runs to the end of the line. -/
def isCopyrightStart (s : List Char) : Bool :=
  List.isPrefixOf "copyright".data (lowerStr s) && hasMarker (lowerStr (s.drop 9))

/-- The leftmost `COPYRIGHT_RE` match of one line of a file: the longest
suffix at which the pattern matches, i.e. what one step of `find_iter`
yields on this line. -/
def findCopyrightM : List Char → Option (List Char)
  | [] => none
  | c :: cs => if isCopyrightStart (c :: cs) then some (c :: cs) else findCopyrightM cs

/-- `NOT_COPYRIGHT_RE` (`(?i)(year|notice|holder|owner|interest|yyyy)`):
whether the false-positive filter matches the given text. -/
def not_copyright_match (s : List Char) : Bool :=
  ["year", "notice", "holder", "owner", "interest", "yyyy"].any
    (fun w => containsSub (lowerStr s) w.data)

/-- The notice extracted from one line of a scanned candidate file by
`scan_for_notices`: the `COPYRIGHT_RE` match of the line, kept only when
`NOT_COPYRIGHT_RE` does not match the matched text. -/
def scanLine (line : List Char) : Option (List Char) :=
  match findCopyrightM line with
  | none => none
  | some m => if not_copyright_match m then none else some m

/-- The claim's reading of the scanner filter, for comparison: the whole
line is extracted as the notice when the copyright pattern matches it and
the false-positive words occur nowhere in the line. -/
def claimLineExtracted (line : List Char) : Bool :=
  (findCopyrightM line).isSome && !(not_copyright_match line)

/-- `COPYRIGHT_FILE_RE.is_match` on a file name: the unanchored
case-insensitive regex `(license.*|copying.*|readme.*|copyright.*|notice.*)`
matches exactly when one of the five keywords occurs in the lowered name. -/
def is_candidate_file (name : List Char) : Bool :=
  ["license", "copying", "readme", "copyright", "notice"].any
    (fun k => containsSub (lowerStr name) k.data)

/-- The configuration consumed by the collectors (`struct Config`). -/
structure Config where
  allowed_licenses : List LicenseReq
  ignore_packages : List String
deriving DecidableEq, Repr

/-- Insertion into a `HashSet<String>` modelled as a duplicate-free list. -/
def insertNotice (out : List String) (s : String) : List String :=
  if s ∈ out then out else out ++ [s]

/-- One cargo package as `cargo metadata` reports it, together with the
answer the file system would give `scan_for_notices` on its directory
(`scan_result`).  `license` is the parsed declared license, `none` when the
manifest declares none. -/
structure CargoPackage where
  name : String
  version : String
  source : Option String
  is_crates_registry : Bool
  license : Option Expression
  authors : List String
  scan_result : List String
deriving DecidableEq, Repr

/-- The notice set built for one cargo package: the synthetic authors line
when the author list is non-empty, then the scan results. -/
def cargo_dep_notices (p : CargoPackage) : List String :=
  p.scan_result.foldl insertNotice
    (if p.authors = [] then [] else ["Authors: " ++ String.intercalate ", " p.authors])

/-- `cargo::collect_notices` over the package list: local packages (no
source) are filtered out; ignored names are skipped before the license is
touched; a missing license aborts naming the package; otherwise the license
is validated and a dependency record appended. -/
def cargo_collect (cfg : Config) : List CargoPackage → Notices → Except String Notices
  | [], n => .ok n
  | p :: ps, n =>
    match p.source with
    | none => cargo_collect cfg ps n
    | some src =>
      if p.name ∈ cfg.ignore_packages then
        cargo_collect cfg ps n
      else
        match p.license with
        | none => .error ("Package " ++ p.name ++ " does not have a license")
        | some lic =>
          let package_url :=
            if p.is_crates_registry then
              "https://crates.io/crates/" ++ p.name ++ "/" ++ p.version
            else src
          match handle_package_license cfg.allowed_licenses lic n with
          | .error e => .error e
          | .ok n1 =>
            cargo_collect cfg ps
              { n1 with dependencies :=
                  n1.dependencies ++ [⟨p.name, package_url, lic, cargo_dep_notices p⟩] }

/-- One pnpm dependency: its `package.json` content plus the scan answer
for its directory. -/
structure PnpmPackage where
  name : String
  version : String
  license : Option Expression
  scan_result : List String
deriving DecidableEq, Repr

/-- The per-dependency loop of `pnpm::collect_notices`: ignored names are
skipped before the license is touched; a missing license aborts naming the
package; otherwise validate and append the record. -/
def pnpm_collect_deps (cfg : Config) : List PnpmPackage → Notices → Except String Notices
  | [], n => .ok n
  | p :: ps, n =>
    if p.name ∈ cfg.ignore_packages then
      pnpm_collect_deps cfg ps n
    else
      match p.license with
      | none => .error ("Package " ++ p.name ++ " doesn\x27t have a license")
      | some lic =>
        match handle_package_license cfg.allowed_licenses lic n with
        | .error e => .error e
        | .ok n1 =>
          pnpm_collect_deps cfg ps
            { n1 with dependencies :=
                n1.dependencies ++
                  [⟨p.name, "https://www.npmjs.com/package/" ++ p.name ++ "/v/" ++ p.version,
                    lic, p.scan_result.foldl insertNotice []⟩] }

/-- `pnpm::collect_notices`: a no-op when the lockfile is absent. -/
def pnpm_collect_notices (cfg : Config) (lockfileExists : Bool) (pkgs : List PnpmPackage)
    (n : Notices) : Except String Notices :=
  if lockfileExists then pnpm_collect_deps cfg pkgs n else .ok n

/-- The three report files `start` writes, in write order. -/
def output_files : List String :=
  ["3rd-party-notices.html", "3rd-party-notices.json", "3rd-party-notices.md"]

/-- `start`: run the cargo collector, then the pnpm collector, and only
then write the three reports; an error from either collector propagates
before any file is written.  The success value carries the final aggregator
and the files produced. -/
def start (cfg : Config) (lockfileExists : Bool) (cargoPkgs : List CargoPackage)
    (pnpmPkgs : List PnpmPackage) : Except String (Notices × List String) :=
  match cargo_collect cfg cargoPkgs ⟨[], []⟩ with
  | .error e => .error e
  | .ok n1 =>
    match pnpm_collect_notices cfg lockfileExists pnpmPkgs n1 with
    | .error e => .error e
    | .ok n2 => .ok (n2, output_files)

/-- The files a run leaves on disk: none when it aborts. -/
def files_written : Except String (Notices × List String) → List String
  | .error _ => []
  | .ok r => r.2

/-- Sample requirement `MIT`. -/
def mitReq : LicenseReq := ⟨"MIT", false, none⟩

/-- Sample requirement `Apache-2.0`. -/
def apacheReq : LicenseReq := ⟨"Apache-2.0", false, none⟩

/-- Sample expression `MIT OR Apache-2.0`. -/
def mitOrApache : Expression := .or (.req mitReq) (.req apacheReq)

/-- Sample expression `MIT AND Apache-2.0`. -/
def mitAndApache : Expression := .and (.req mitReq) (.req apacheReq)

/-- The evaluation machine agrees with the specification's logical
semantics on satisfaction. -/
theorem evalFail_fst (allow : LicenseReq → Bool) (e : Expression) :
    (e.evalFail allow).1 = e.specSatisfied allow := by
  induction e with
  | req r => rfl
  | and a b iha ihb => simp [Expression.evalFail, Expression.specSatisfied, iha, ihb]
  | or a b iha ihb => simp [Expression.evalFail, Expression.specSatisfied, iha, ihb]

/-- The failures the machine records are exactly the leaf requirements that
fail the allow predicate, in encounter order. -/
theorem evalFail_snd (allow : LicenseReq → Bool) (e : Expression) :
    (e.evalFail allow).2 = e.requirements.filter (fun r => !allow r) := by
  induction e with
  | req r => cases h : allow r <;> simp [Expression.evalFail, Expression.requirements, h]
  | and a b iha ihb =>
    simp [Expression.evalFail, Expression.requirements, iha, ihb, List.filter_append]
  | or a b iha ihb =>
    simp [Expression.evalFail, Expression.requirements, iha, ihb, List.filter_append]

/-- Adding an already-present requirement changes nothing. -/
theorem add_license_of_mem (n : Notices) (r : LicenseReq) (h : r ∈ n.licences) :
    n.add_license r = n := by
  simp [Notices.add_license, h]

/-- Membership after one `add_license`. -/
theorem mem_add_license (n : Notices) (r a : LicenseReq) :
    a ∈ (n.add_license r).licences ↔ a ∈ n.licences ∨ a = r := by
  unfold Notices.add_license
  split
  · next h =>
    constructor
    · exact Or.inl
    · rintro (ha | rfl)
      · exact ha
      · exact h
  · simp

/-- `add_license` keeps `dependencies` untouched. -/
theorem add_license_dependencies (n : Notices) (r : LicenseReq) :
    (n.add_license r).dependencies = n.dependencies := by
  unfold Notices.add_license
  split <;> rfl

/-- Membership after folding `add_license` over a requirement list. -/
theorem mem_foldl_add_license (rs : List LicenseReq) (n : Notices) (a : LicenseReq) :
    a ∈ (rs.foldl Notices.add_license n).licences ↔ a ∈ n.licences ∨ a ∈ rs := by
  induction rs generalizing n with
  | nil => simp
  | cons r rs ih =>
    rw [List.foldl_cons, ih, mem_add_license]
    simp [or_assoc]

/-- One `add_license` preserves the duplicate-free invariant. -/
theorem add_license_nodup (n : Notices) (r : LicenseReq) (h : n.licences.Nodup) :
    (n.add_license r).licences.Nodup := by
  unfold Notices.add_license
  split
  · exact h
  · next hmem => simp [List.nodup_append, h, hmem]

/-- One `add_license` keeps the existing entries as a prefix of the new
list: no existing entry moves. -/
theorem add_license_prefix_of (n : Notices) (r : LicenseReq) :
    n.licences <+: (n.add_license r).licences := by
  unfold Notices.add_license
  split
  · exact ⟨[], by simp⟩
  · exact ⟨[r], rfl⟩

/-- Folding `add_license` preserves the duplicate-free invariant. -/
theorem foldl_add_license_nodup (rs : List LicenseReq) (n : Notices) (h : n.licences.Nodup) :
    ((rs.foldl Notices.add_license n).licences).Nodup := by
  induction rs generalizing n with
  | nil => exact h
  | cons r rs ih => exact ih (n.add_license r) (add_license_nodup n r h)

/-- Folding `add_license` keeps the starting entries in place as a prefix. -/
theorem foldl_add_license_prefix_of (rs : List LicenseReq) (n : Notices) :
    n.licences <+: ((rs.foldl Notices.add_license n).licences) := by
  induction rs generalizing n with
  | nil => exact ⟨[], by simp⟩
  | cons r rs ih => exact (add_license_prefix_of n r).trans (ih (n.add_license r))

/-- C1.  For every license expression and allow-list, validation in
`handle_package_license` succeeds exactly when the logical AND/OR/WITH
semantics of the expression, testing each leaf for membership in the
allow-list, yield true; in particular `MIT OR Apache-2.0` passes against
the allow-list `[Apache-2.0]`, while `MIT AND Apache-2.0` against the same
allow-list fails with failing-requirements report exactly `[MIT]`. -/
theorem evaluate_iff_semantics (allowed : List LicenseReq) (e : Expression) (n : Notices) :
    (exceptOk (handle_package_license allowed e n)
      = e.specSatisfied (fun r => decide (r ∈ allowed)))
    ∧ exceptOk (handle_package_license [apacheReq] mitOrApache ⟨[], []⟩) = true
    ∧ exceptOk (handle_package_license [apacheReq] mitAndApache ⟨[], []⟩) = false
    ∧ mitAndApache.evaluate_with_failures (fun r => decide (r ∈ [apacheReq]))
        = .error [mitReq] := by
  refine ⟨?_, rfl, rfl, rfl⟩
  unfold handle_package_license Expression.evaluate_with_failures
  rw [← evalFail_fst]
  cases h : (e.evalFail fun r => decide (r ∈ allowed)).1 <;> simp [h, exceptOk]

/-- C2.  Whenever `handle_package_license` rejects an expression, its error
message is the fixed diagnostic followed by every leaf requirement that
failed allow-list membership — not just the first — comma-separated, in
encounter order within the expression. -/
theorem failure_message_enumerates_all (allowed : List LicenseReq) (e : Expression)
    (n : Notices) (msg : String) (h : handle_package_license allowed e n = .error msg) :
    msg = "None of the following licenses were allowed in the `allowed_licenses` configuration: "
      ++ String.intercalate ", "
        ((e.requirements.filter (fun r => !decide (r ∈ allowed))).map LicenseReq.render) := by
  unfold handle_package_license Expression.evaluate_with_failures at h
  cases hb : (e.evalFail fun r => decide (r ∈ allowed)).1 with
  | true => simp [hb] at h
  | false =>
    simp [hb] at h
    rw [← h, allowFailMessage, evalFail_snd]

/-- Witness for C2 at `MIT AND Apache-2.0` against `[Apache-2.0]`. -/
theorem failure_message_enumerates_all_witness :
    allowFailMessage [mitReq]
      = "None of the following licenses were allowed in the `allowed_licenses` configuration: "
        ++ String.intercalate ", "
          ((mitAndApache.requirements.filter
              (fun r => !decide (r ∈ ([apacheReq] : List LicenseReq)))).map LicenseReq.render) :=
  failure_message_enumerates_all [apacheReq] mitAndApache ⟨[], []⟩ (allowFailMessage [mitReq]) rfl

/-- C3.  Whenever `handle_package_license` succeeds, every requirement
named anywhere in the expression is in the aggregator's requirement list —
not only the satisfying subset. -/
theorem requirements_all_recorded (allowed : List LicenseReq) (e : Expression)
    (n n2 : Notices) (h : handle_package_license allowed e n = .ok n2) :
    ∀ r ∈ e.requirements, r ∈ n2.licences := by
  unfold handle_package_license at h
  split at h
  · cases h
  · cases h
    intro r hr
    rw [mem_foldl_add_license]
    exact Or.inr hr

/-- Witness for C3: `MIT OR Apache-2.0` is satisfied through the
`Apache-2.0` branch alone, and the unneeded `MIT` is still recorded. -/
theorem requirements_all_recorded_witness :
    mitReq ∈ (Notices.mk [] [mitReq, apacheReq]).licences :=
  requirements_all_recorded [apacheReq] mitOrApache ⟨[], []⟩ ⟨[], [mitReq, apacheReq]⟩ rfl
    mitReq (by simp [Expression.requirements, mitOrApache])

/-- C4.  Adding a requirement that is already (structurally) in the
aggregator's requirement list is a no-op — the state is unchanged, so the
list's length and every entry's position are unchanged — and across any
sequence of adds starting from a duplicate-free state the list stays
duplicate-free with the existing entries kept in place as a prefix
(first-seen insertion order). -/
theorem add_license_dedup (n : Notices) (r : LicenseReq) (rs : List LicenseReq) :
    (r ∈ n.licences → n.add_license r = n)
    ∧ (n.licences.Nodup →
        ((rs.foldl Notices.add_license n).licences.Nodup
          ∧ n.licences <+: (rs.foldl Notices.add_license n).licences)) :=
  ⟨add_license_of_mem n r,
   fun h => ⟨foldl_add_license_nodup rs n h, foldl_add_license_prefix_of rs n⟩⟩

/-- The single requirement of an expression that has exactly one. -/
theorem visit_entry_single (e : Expression) (r : LicenseReq)
    (h : e.requirements = [r]) : visit_entry e = .ok r := by
  unfold visit_entry
  rw [h]

/-- An expression with more than one requirement is rejected by the
allow-list entry visitor. -/
theorem visit_entry_multi (e : Expression) (h : 1 < e.requirements.length) :
    visit_entry e = .error "License must be a single requirement" := by
  unfold visit_entry
  cases hr : e.requirements with
  | nil => rw [hr] at h; simp at h
  | cons a t =>
    cases t with
    | nil => rw [hr] at h; simp at h
    | cons b t2 => rfl

/-- Configuration loading fails as soon as any entry errors. -/
theorem license_reqs_error_of_mem (entries : List Expression) (e : Expression)
    (hmem : e ∈ entries) (h : 1 < e.requirements.length) :
    exceptOk (license_reqs entries) = false := by
  induction entries with
  | nil => cases hmem
  | cons x xs ih =>
    unfold license_reqs
    cases hx : visit_entry x with
    | error msg => rfl
    | ok r =>
      rcases List.mem_cons.mp hmem with heq | hxs
      · rw [← heq, visit_entry_multi e h] at hx
        cases hx
      · cases hrec : license_reqs xs with
        | error msg => rfl
        | ok rs =>
          have := ih hxs
          rw [hrec] at this
          cases this

/-- C5.  An `allowed_licenses` entry whose expression contains exactly one
requirement is accepted with that requirement; an entry containing more
than one requirement is rejected, and its presence anywhere in the
configured list makes configuration loading fail. -/
theorem allowlist_entry_single_requirement (e : Expression) (entries : List Expression) :
    (∀ r, e.requirements = [r] → visit_entry e = .ok r)
    ∧ (1 < e.requirements.length →
        visit_entry e = .error "License must be a single requirement")
    ∧ (e ∈ entries → 1 < e.requirements.length → exceptOk (license_reqs entries) = false) :=
  ⟨fun r h => visit_entry_single e r h,
   visit_entry_multi e,
   fun hmem h => license_reqs_error_of_mem entries e hmem h⟩

/-- `containsSub` decides contiguous-substring occurrence. -/
theorem containsSub_iff_infix (l pat : List Char) :
    containsSub l pat = true ↔ pat <:+: l := by
  cases pat with
  | nil =>
    cases l <;> simp [containsSub, List.nil_infix]
  | cons p ps =>
    induction l with
    | nil =>
      simp [containsSub, List.infix_nil]
    | cons c cs ih =>
      rw [show containsSub (c :: cs) (p :: ps)
          = (List.isPrefixOf (p :: ps) (c :: cs) || containsSub cs (p :: ps)) from rfl]
      rw [Bool.or_eq_true, List.isPrefixOf_iff_prefix, ih, List.infix_cons_iff]

/-- `findCopyrightM` computes the leftmost match: the longest suffix of the
line at which the copyright pattern matches. -/
theorem findCopyrightM_spec (line m : List Char) :
    findCopyrightM line = some m ↔
      (m <:+ line ∧ isCopyrightStart m = true
        ∧ ∀ m2, m2 <:+ line → isCopyrightStart m2 = true → m2.length ≤ m.length) := by
  induction line with
  | nil =>
    simp only [findCopyrightM]
    constructor
    · intro h
      cases h
    · rintro ⟨hs, hstart, -⟩
      rw [List.suffix_nil] at hs
      subst hs
      exact absurd hstart (by decide)
  | cons c cs ih =>
    by_cases h : isCopyrightStart (c :: cs) = true
    · rw [show findCopyrightM (c :: cs) = some (c :: cs) by simp [findCopyrightM, h]]
      constructor
      · intro hm
        cases hm
        refine ⟨List.suffix_refl _, h, ?_⟩
        intro m2 hm2 _
        exact hm2.length_le
      · rintro ⟨hs, -, hmax⟩
        have h1 : (c :: cs).length ≤ m.length := hmax (c :: cs) (List.suffix_refl _) h
        have h2 : m.length ≤ (c :: cs).length := hs.length_le
        exact (hs.eq_of_length (Nat.le_antisymm h2 h1)).symm ▸ rfl
    · rw [show findCopyrightM (c :: cs) = findCopyrightM cs by simp [findCopyrightM, h]]
      rw [ih]
      constructor
      · rintro ⟨hs, hstart, hmax⟩
        refine ⟨hs.trans (List.suffix_cons c cs), hstart, ?_⟩
        intro m2 hm2 hst2
        rcases List.suffix_cons_iff.mp hm2 with heq | hm2'
        · exact absurd (heq ▸ hst2) h
        · exact hmax m2 hm2' hst2
      · rintro ⟨hs, hstart, hmax⟩
        rcases List.suffix_cons_iff.mp hs with heq | hs'
        · exact absurd (heq ▸ hstart) h
        · refine ⟨hs', hstart, ?_⟩
          intro m2 hm2 hst2
          exact hmax m2 (hm2.trans (List.suffix_cons c cs)) hst2

/-- C6 counterexample.  On the line `year one: Copyright (c) Jane` the
claim's line-level filter discards the line (it contains `year`), but the
scanner extracts the match `Copyright (c) Jane`, because the code applies
`NOT_COPYRIGHT_RE` to the regex match rather than to the whole line. -/
theorem scan_filter_on_line_counterexample :
    scanLine ("year one: Copyright (c) Jane").data = some ("Copyright (c) Jane").data
    ∧ claimLineExtracted ("year one: Copyright (c) Jane").data = false :=
  ⟨by decide, by decide⟩

/-- C6 (amended).  A line yields a notice exactly when some suffix of it
matches the copyright pattern; the extracted notice is the longest such
suffix (the leftmost match, running to end of line), kept only when the
false-positive words are absent from that extracted text; in particular
`Copyright (c) <year> <copyright holders>` is discarded and
`Copyright © 2023 Jane Doe` is retained. -/
theorem scan_line_characterization (line m : List Char) :
    (scanLine line = some m ↔
      (m <:+ line ∧ isCopyrightStart m = true ∧ not_copyright_match m = false
        ∧ ∀ m2, m2 <:+ line → isCopyrightStart m2 = true → m2.length ≤ m.length))
    ∧ scanLine ("Copyright (c) <year> <copyright holders>").data = none
    ∧ scanLine ("Copyright © 2023 Jane Doe").data
        = some ("Copyright © 2023 Jane Doe").data := by
  refine ⟨?_, by decide, by decide⟩
  constructor
  · intro h
    unfold scanLine at h
    cases hf : findCopyrightM line with
    | none => rw [hf] at h; cases h
    | some m0 =>
      rw [hf] at h
      cases hn : not_copyright_match m0 with
      | true => simp [hn] at h
      | false =>
        simp [hn] at h
        cases h
        obtain ⟨hs, hst, hmax⟩ := (findCopyrightM_spec line _).mp hf
        exact ⟨hs, hst, hn, hmax⟩
  · rintro ⟨hs, hst, hnc, hmax⟩
    have hf : findCopyrightM line = some m := (findCopyrightM_spec line m).mpr ⟨hs, hst, hmax⟩
    unfold scanLine
    rw [hf]
    simp [hnc]

/-- C7.  A file name is a candidate notice file exactly when the
case-insensitive pattern `(license|copying|readme|copyright|notice)`
matches somewhere in it, i.e. one of the five keywords occurs in the
lowered name; the spec's positive and negative examples behave as
stated. -/
theorem candidate_file_pattern (name : List Char) :
    (is_candidate_file name = true ↔
      ∃ k ∈ (["license", "copying", "readme", "copyright", "notice"] : List String),
        k.data <:+: lowerStr name)
    ∧ is_candidate_file ("LICENSE.txt").data = true
    ∧ is_candidate_file ("license").data = true
    ∧ is_candidate_file ("COPYING.md").data = true
    ∧ is_candidate_file ("NOTICE.txt").data = true
    ∧ is_candidate_file ("Readme.rst").data = true
    ∧ is_candidate_file ("package.json").data = false := by
  refine ⟨?_, by decide, by decide, by decide, by decide, by decide, by decide⟩
  unfold is_candidate_file
  simp only [List.any_eq_true, containsSub_iff_infix]

/-- Resolution of one requirement succeeds when its identifiers are in the
corpus. -/
theorem req_license_text_isSome (c : Corpus) (r : LicenseReq)
    (h1 : (c.license_text r.license).isSome)
    (h2 : ∀ e, r.exception = some e → (c.exception_text e).isSome) :
    (req_license_text c r).isSome := by
  obtain ⟨bt, hbt⟩ := Option.isSome_iff_exists.mp h1
  cases he : r.exception with
  | none => simp [req_license_text, hbt, he]
  | some e =>
    obtain ⟨et, het⟩ := Option.isSome_iff_exists.mp (h2 e he)
    simp [req_license_text, hbt, he, het]

/-- Resolution of a whole requirement list succeeds when each element's
resolution does. -/
theorem collectTexts_isSome (c : Corpus) (l : List LicenseReq)
    (h : ∀ r ∈ l, (req_license_text c r).isSome) :
    (collectTexts c l).isSome := by
  induction l with
  | nil => simp [collectTexts]
  | cons r rs ih =>
    obtain ⟨t, ht⟩ := Option.isSome_iff_exists.mp (h r (by simp))
    obtain ⟨ts, hts⟩ := Option.isSome_iff_exists.mp (ih (fun x hx => h x (by simp [hx])))
    simp [collectTexts, ht, hts]

/-- C8.  When the static corpus resolves every license identifier (and
every exception identifier) of the aggregator's requirement list,
`get_license_texts` completes without reaching its abort, and whenever a
requirement carries an exception its resolved text is the license text
with the exception text appended beneath the `WITH EXCEPTION:` delimiter,
separated by blank lines. -/
theorem license_text_resolution (n : Notices) (c : Corpus)
    (h : ∀ r ∈ n.licences, (c.license_text r.license).isSome
      ∧ ∀ e, r.exception = some e → (c.exception_text e).isSome) :
    (n.get_license_texts c).isSome
    ∧ ∀ (r : LicenseReq) (e bt et : String), r.exception = some e →
        c.license_text r.license = some bt → c.exception_text e = some et →
        req_license_text c r = some (bt ++ "\n\nWITH EXCEPTION:\n\n" ++ et) := by
  constructor
  · exact collectTexts_isSome c n.licences
      (fun r hr => req_license_text_isSome c r (h r hr).1 (h r hr).2)
  · intro r e bt et he hbt het
    simp [req_license_text, hbt, he, het]

/-- A corpus answering every lookup, for the C8 witness. -/
def tinyCorpus : Corpus := ⟨fun _ => some "LT", fun _ => some "ET"⟩

/-- Witness for C8 at a one-requirement aggregator whose requirement
carries an exception. -/
theorem license_text_resolution_witness :
    (Notices.get_license_texts ⟨[], [⟨"GPL-2.0", false, some "Classpath-exception-2.0"⟩]⟩
        tinyCorpus).isSome
    ∧ req_license_text tinyCorpus ⟨"GPL-2.0", false, some "Classpath-exception-2.0"⟩
        = some ("LT" ++ "\n\nWITH EXCEPTION:\n\n" ++ "ET") :=
  have h := license_text_resolution ⟨[], [⟨"GPL-2.0", false, some "Classpath-exception-2.0"⟩]⟩
    tinyCorpus (fun _ _ => ⟨rfl, fun _ _ => rfl⟩)
  ⟨h.1, h.2 ⟨"GPL-2.0", false, some "Classpath-exception-2.0"⟩ "Classpath-exception-2.0"
    "LT" "ET" rfl rfl rfl⟩

/-- Processing a concatenated package list is processing the first part,
then the second from the resulting state (cargo). -/
theorem cargo_collect_append (cfg : Config) (l1 l2 : List CargoPackage) (n : Notices) :
    cargo_collect cfg (l1 ++ l2) n =
      match cargo_collect cfg l1 n with
      | .error e => .error e
      | .ok n1 => cargo_collect cfg l2 n1 := by
  induction l1 generalizing n with
  | nil => simp [cargo_collect]
  | cons p ps ih =>
    cases hs : p.source with
    | none => simp [cargo_collect, hs, ih]
    | some src =>
      by_cases hig : p.name ∈ cfg.ignore_packages
      · simp [cargo_collect, hs, hig, ih]
      · cases hl : p.license with
        | none => simp [cargo_collect, hs, hig, hl]
        | some lic =>
          cases hh : handle_package_license cfg.allowed_licenses lic n with
          | error e => simp [cargo_collect, hs, hig, hl, hh]
          | ok n1 => simp [cargo_collect, hs, hig, hl, hh, ih]

/-- Processing a concatenated package list is processing the first part,
then the second from the resulting state (pnpm). -/
theorem pnpm_collect_deps_append (cfg : Config) (l1 l2 : List PnpmPackage) (n : Notices) :
    pnpm_collect_deps cfg (l1 ++ l2) n =
      match pnpm_collect_deps cfg l1 n with
      | .error e => .error e
      | .ok n1 => pnpm_collect_deps cfg l2 n1 := by
  induction l1 generalizing n with
  | nil => simp [pnpm_collect_deps]
  | cons p ps ih =>
    by_cases hig : p.name ∈ cfg.ignore_packages
    · simp [pnpm_collect_deps, hig, ih]
    · cases hl : p.license with
      | none => simp [pnpm_collect_deps, hig, hl]
      | some lic =>
        cases hh : handle_package_license cfg.allowed_licenses lic n with
        | error e => simp [pnpm_collect_deps, hig, hl, hh]
        | ok n1 => simp [pnpm_collect_deps, hig, hl, hh, ih]

/-- An ignored cargo package is skipped before its license is touched. -/
theorem cargo_collect_skip (cfg : Config) (p : CargoPackage) (ps : List CargoPackage)
    (n : Notices) (hig : p.name ∈ cfg.ignore_packages) :
    cargo_collect cfg (p :: ps) n = cargo_collect cfg ps n := by
  cases hs : p.source <;> simp [cargo_collect, hs, hig]

/-- An ignored pnpm package is skipped before its license is touched. -/
theorem pnpm_collect_deps_skip (cfg : Config) (p : PnpmPackage) (ps : List PnpmPackage)
    (n : Notices) (hig : p.name ∈ cfg.ignore_packages) :
    pnpm_collect_deps cfg (p :: ps) n = pnpm_collect_deps cfg ps n := by
  simp [pnpm_collect_deps, hig]

/-- C9.  If any processed dependency lacks a declared license, the run
aborts with the error naming that dependency and no output file is
written, since `start` writes the three reports only after both collectors
have completed.  Cargo side: a non-local, non-ignored cargo package with
no license, the packages before it processing cleanly.  Pnpm side: a
non-ignored pnpm package with no license in its manifest, the cargo
collector and the pnpm packages before it processing cleanly. -/
theorem missing_license_aborts_before_write (cfg : Config) (lockfileExists : Bool)
    (l1 l2 : List CargoPackage) (p : CargoPackage) (pnpmPkgs : List PnpmPackage)
    (cargoPkgs : List CargoPackage) (m1 m2 : List PnpmPackage) (q : PnpmPackage)
    (na nb : Notices) :
    (cargo_collect cfg l1 ⟨[], []⟩ = .ok na → p.source.isSome →
      p.name ∉ cfg.ignore_packages → p.license = none →
      (start cfg lockfileExists (l1 ++ p :: l2) pnpmPkgs
        = .error ("Package " ++ p.name ++ " does not have a license")
      ∧ files_written (start cfg lockfileExists (l1 ++ p :: l2) pnpmPkgs) = []))
    ∧ (cargo_collect cfg cargoPkgs ⟨[], []⟩ = .ok na →
        pnpm_collect_deps cfg m1 na = .ok nb →
        q.name ∉ cfg.ignore_packages → q.license = none →
        (start cfg true cargoPkgs (m1 ++ q :: m2)
          = .error ("Package " ++ q.name ++ " doesn\x27t have a license")
        ∧ files_written (start cfg true cargoPkgs (m1 ++ q :: m2)) = [])) := by
  constructor
  · intro hpre hsrc hig hlic
    have hstep : cargo_collect cfg (l1 ++ p :: l2) ⟨[], []⟩
        = .error ("Package " ++ p.name ++ " does not have a license") := by
      rw [cargo_collect_append, hpre]
      obtain ⟨src, hs⟩ := Option.isSome_iff_exists.mp hsrc
      simp [cargo_collect, hs, hig, hlic]
    refine ⟨?_, ?_⟩
    · unfold start
      rw [hstep]
    · unfold files_written start
      rw [hstep]
  · intro hc hm hig hlic
    have hstep : pnpm_collect_notices cfg true (m1 ++ q :: m2) na
        = .error ("Package " ++ q.name ++ " doesn\x27t have a license") := by
      show pnpm_collect_deps cfg (m1 ++ q :: m2) na = _
      rw [pnpm_collect_deps_append, hm]
      simp [pnpm_collect_deps, hig, hlic]
    have hstart : start cfg true cargoPkgs (m1 ++ q :: m2)
        = .error ("Package " ++ q.name ++ " doesn\x27t have a license") := by
      unfold start
      rw [hc]
      simp [hstep]
    refine ⟨hstart, ?_⟩
    unfold files_written
    rw [hstart]

/-- A cargo package with a source but no declared license, for the C9
witness. -/
def missingLicensePkg : CargoPackage :=
  ⟨"badpkg", "1.0.0", some "registry+https://crates.io-index", true, none, [], []⟩

/-- A pnpm package with no declared license, for the C9 witness. -/
def missingLicensePnpmPkg : PnpmPackage := ⟨"badnpm", "1.0.0", none, []⟩

/-- Witness for C9: a run whose single cargo package lacks a license, and
a run whose single pnpm package lacks one, each abort with the naming
error and produce no file. -/
theorem missing_license_aborts_before_write_witness :
    (start ⟨[mitReq], []⟩ false [missingLicensePkg] []
        = .error ("Package " ++ "badpkg" ++ " does not have a license")
      ∧ files_written (start ⟨[mitReq], []⟩ false [missingLicensePkg] []) = [])
    ∧ (start ⟨[mitReq], []⟩ true [] [missingLicensePnpmPkg]
        = .error ("Package " ++ "badnpm" ++ " doesn\x27t have a license")
      ∧ files_written (start ⟨[mitReq], []⟩ true [] [missingLicensePnpmPkg]) = []) :=
  ⟨(missing_license_aborts_before_write ⟨[mitReq], []⟩ false [] [] missingLicensePkg []
      [] [] [] missingLicensePnpmPkg ⟨[], []⟩ ⟨[], []⟩).1 rfl rfl (by simp) rfl,
   (missing_license_aborts_before_write ⟨[mitReq], []⟩ false [] [] missingLicensePkg []
      [] [] [] missingLicensePnpmPkg ⟨[], []⟩ ⟨[], []⟩).2 rfl rfl (by simp) rfl⟩

/-- C10.  In both collectors the ignore-list check precedes license
extraction and validation: a dependency whose name is configured as
ignored contributes nothing and can never abort the run, whatever its
license (including a missing one) — processing a list with the ignored
package inserted equals processing the list without it. -/
theorem ignored_packages_skipped (cfg : Config) (p : CargoPackage) (q : PnpmPackage)
    (l1 l2 : List CargoPackage) (m1 m2 : List PnpmPackage) (n : Notices) (lock : Bool)
    (hp : p.name ∈ cfg.ignore_packages) (hq : q.name ∈ cfg.ignore_packages) :
    cargo_collect cfg (l1 ++ p :: l2) n = cargo_collect cfg (l1 ++ l2) n
    ∧ pnpm_collect_notices cfg lock (m1 ++ q :: m2) n
        = pnpm_collect_notices cfg lock (m1 ++ m2) n := by
  constructor
  · rw [cargo_collect_append, cargo_collect_append]
    cases h1 : cargo_collect cfg l1 n with
    | error e => rfl
    | ok n1 => exact cargo_collect_skip cfg p l2 n1 hp
  · unfold pnpm_collect_notices
    cases lock with
    | false => rfl
    | true =>
      simp only [if_true]
      rw [pnpm_collect_deps_append, pnpm_collect_deps_append]
      cases h1 : pnpm_collect_deps cfg m1 n with
      | error e => rfl
      | ok n1 => exact pnpm_collect_deps_skip cfg q m2 n1 hq

/-- An ignored cargo package (with a missing license), for the C10
witness. -/
def ignoredCargoPkg : CargoPackage := ⟨"ig", "1.0.0", some "s", true, none, [], []⟩

/-- An ignored pnpm package (with a missing license), for the C10
witness. -/
def ignoredPnpmPkg : PnpmPackage := ⟨"ig", "1.0.0", none, []⟩

/-- Witness for C10: inserting ignored packages (even license-less ones)
changes neither collector's outcome. -/
theorem ignored_packages_skipped_witness :
    cargo_collect ⟨[], ["ig"]⟩ [ignoredCargoPkg] ⟨[], []⟩
      = cargo_collect ⟨[], ["ig"]⟩ [] ⟨[], []⟩
    ∧ pnpm_collect_notices ⟨[], ["ig"]⟩ true [ignoredPnpmPkg] ⟨[], []⟩
        = pnpm_collect_notices ⟨[], ["ig"]⟩ true [] ⟨[], []⟩ :=
  ignored_packages_skipped ⟨[], ["ig"]⟩ ignoredCargoPkg ignoredPnpmPkg [] [] [] [] ⟨[], []⟩
    true (by simp [ignoredCargoPkg]) (by simp [ignoredPnpmPkg])

end MakeNotices
